import Mathlib

/-!
Verification of the OpenShop instance parser and solution contract
(`openshop.py`, class `OpenShopProblem`).

The file shallowly embeds the program:

* an instance file, after tokenisation, is a `List (List Int)` — one entry per
  raw line, holding the integer tokens of that line; a blank line is `[]`;
* Python exceptions (`IndexError` from `lines[i]` / `tokens[i]`,
  `ValueError` from `list.index`) are modelled by `Option`;
* the dynamically typed `solution` objects handled by `evaluate_solution`
  are modelled by the `PyVal` type below;
* `random.shuffle` is modelled by an oracle `shuffle : Nat → List Nat → List Nat`
  (call counter, input list); the Python library guarantees the result is a
  permutation of the input, which theorems take as a hypothesis on the oracle;
* methods on `OpenShopProblem` are state-passing functions
  `OpenShopProblem → ... → OpenShopProblem × result`.
-/

/-- A Python runtime value, as far as `evaluate_solution` inspects one:
integers, strings, lists, string-keyed dicts, and `None`. -/
inductive PyVal where
  | int (n : Int)
  | str (s : String)
  | list (l : List PyVal)
  | dict (entries : List (String × PyVal))
  | pyNone

/-- Python's `list.index(x)` (used at `machine_index[j].index(m)`): the first
position holding `x`; `none` models the `ValueError` raised when `x` is absent. -/
def pyIndex (x : Int) : List Int → Option Nat
  | [] => Option.none
  | a :: as => if a = x then some 0 else (pyIndex x as).map (· + 1)

/-- Run a fallible body over a list, collecting the results; `none` as soon as
one call fails.  Models a Python `for` loop that appends to an accumulator and
may raise. -/
def optMap {α β : Type} (f : α → Option β) : List α → Option (List β)
  | [] => some []
  | a :: as => (f a).bind fun b => (optMap f as).map (b :: ·)

/-- The parsed instance: the four attributes stored by
`OpenShopProblem.__init__`. -/
structure OpenShopProblem where
  nb_jobs : Int
  nb_machines : Int
  processing_times : List (List Int)
  max_start : Int
deriving DecidableEq, Repr

/-- `lines = [line.strip() for line in lines if line.strip()]`: drop blank
lines before any positional indexing. -/
def stripLines (raw : List (List Int)) : List (List Int) :=
  raw.filter (fun l => !l.isEmpty)

/-- The inner reorder loop of `_read_instance` for one job: for each machine
`m < nbm`, `pos = mi.index(m)` and the entry is `drow[pos]`. -/
def buildRow (mi drow : List Int) (nbm : Nat) : Option (List Int) :=
  optMap (fun m => (pyIndex (Int.ofNat m) mi).bind fun pos => drow[pos]?) (List.range nbm)

/-- `OpenShopProblem._read_instance`, after the file has been read and
tokenised.  Follows the source line by line: header counts from `lines[1]`,
durations in task order from `lines[3 .. 3+nb_jobs-1]`, machine indices
(1-indexed, converted by `-1`) from `lines[4+nb_jobs .. 4+2*nb_jobs-1]`,
then the per-job reorder loop and `max_start` as the total sum. -/
def read_instance (raw : List (List Int)) : Option OpenShopProblem :=
  (stripLines raw)[1]?.bind fun tokens =>
  tokens[0]?.bind fun nb_jobs =>
  tokens[1]?.bind fun nb_machines =>
  (optMap (fun k => (stripLines raw)[3 + k]?) (List.range nb_jobs.toNat)).bind fun ptto =>
  (optMap (fun k => (stripLines raw)[4 + nb_jobs.toNat + k]?) (List.range nb_jobs.toNat)).bind
    fun miraw =>
  (optMap (fun j =>
      (miraw.map (fun l => l.map (fun x => x - 1)))[j]?.bind fun mi =>
      ptto[j]?.bind fun drow =>
      buildRow mi drow nb_machines.toNat)
    (List.range nb_jobs.toNat)).bind fun pt =>
  some ⟨nb_jobs, nb_machines, pt, (pt.map List.sum).sum⟩

/-- Key lookup in a modelled dict; `none` means the key is absent
(`k not in d` in Python). -/
def dictGet (es : List (String × PyVal)) (k : String) : Option PyVal :=
  (es.find? (fun e => e.1 == k)).map (fun e => e.2)

/-- `isinstance(solution, dict)`. -/
def isDict : PyVal → Bool
  | PyVal.dict _ => true
  | _ => false

/-- `OpenShopProblem.evaluate_solution`: penalty `1000000000` unless the
argument is a dict carrying both `jobs_order` and `machines_order`; otherwise
`solution.get("objective", 1000000000)`.  The method reads but never writes
the instance, so the state-passing translation returns the state it was
given. -/
def evaluate_solution (st : OpenShopProblem) (solution : PyVal) :
    OpenShopProblem × PyVal :=
  match solution with
  | PyVal.dict es =>
      if !(dictGet es "jobs_order").isSome || !(dictGet es "machines_order").isSome then
        (st, PyVal.int 1000000000)
      else
        (st, (dictGet es "objective").getD (PyVal.int 1000000000))
  | _ => (st, PyVal.int 1000000000)

/-- Encode a list of indices as the Python list of ints it becomes. -/
def encNatList (l : List Nat) : PyVal :=
  PyVal.list (l.map (fun n => PyVal.int (Int.ofNat n)))

/-- `OpenShopProblem.random_solution`: one shuffled copy of
`list(range(nb_jobs))` per machine, one shuffled copy of
`list(range(nb_machines))` per job, returned as
`{"jobs_order": ..., "machines_order": ...}` with no `"objective"` key.
`shuffle` is the `random.shuffle` oracle, fed a running call counter. -/
def random_solution (st : OpenShopProblem) (shuffle : Nat → List Nat → List Nat) :
    OpenShopProblem × PyVal :=
  let jobs_order := (List.range st.nb_machines.toNat).map
    (fun m => shuffle m (List.range st.nb_jobs.toNat))
  let machines_order := (List.range st.nb_jobs.toNat).map
    (fun j => shuffle (st.nb_machines.toNat + j) (List.range st.nb_machines.toNat))
  (st, PyVal.dict
    [("jobs_order", PyVal.list (jobs_order.map encNatList)),
     ("machines_order", PyVal.list (machines_order.map encNatList))])

/-- The 2-job, 2-machine instance of the spec's concrete scenario:
durations `[[3,5],[4,2]]` in task order, machine assignments `[[2,1],[1,2]]`
(1-indexed).  Lines 0, 2 and 5 are the ignored layout lines. -/
def exRaw : List (List Int) :=
  [[9], [2, 2], [9], [3, 5], [4, 2], [9], [2, 1], [1, 2]]

example : read_instance exRaw = some ⟨2, 2, [[5, 3], [4, 2]], 14⟩ := by decide

example : read_instance [[7], [0, 2]] = some ⟨0, 2, [], 0⟩ := by decide

example : read_instance [[9], [1, 2], [9], [3, 5, 9], [9], [1, 1, 2]] =
    some ⟨1, 2, [[3, 9]], 12⟩ := by decide

example : read_instance [[9], [1, 2], [9], [3, 5], [9], [1, 1]] = Option.none := by decide

example :
    (evaluate_solution ⟨1, 1, [[1]], 1⟩
      (PyVal.dict [("jobs_order", PyVal.list []), ("machines_order", PyVal.list []),
        ("objective", PyVal.int 42)])).2 = PyVal.int 42 := rfl

/-! ### Facts about the loop combinator `optMap` -/

theorem optMap_length {α β : Type} {f : α → Option β} :
    ∀ {l : List α} {r : List β}, optMap f l = some r → r.length = l.length := by
  intro l
  induction l with
  | nil => intro r h; simp [optMap] at h; simp [← h]
  | cons a as ih =>
      intro r h
      simp only [optMap, Option.bind_eq_some, Option.map_eq_some'] at h
      obtain ⟨b, _, bs, hbs, hr⟩ := h
      simp [← hr, ih hbs]

theorem optMap_eq_none {α β : Type} {f : α → Option β} :
    ∀ {l : List α} {a : α}, a ∈ l → f a = Option.none → optMap f l = Option.none := by
  intro l
  induction l with
  | nil => intro a ha; cases ha
  | cons x xs ih =>
      intro a ha hf
      rcases List.mem_cons.mp ha with h | h
      · subst h; simp [optMap, hf]
      · simp only [optMap]
        rw [ih h hf]
        cases f x <;> simp

theorem optMap_getElem? {α β : Type} {f : α → Option β} :
    ∀ {l : List α} {r : List β}, optMap f l = some r →
      ∀ i : Nat, i < l.length →
        ∃ a b, l[i]? = some a ∧ f a = some b ∧ r[i]? = some b := by
  intro l
  induction l with
  | nil => intro r _ i hi; simp at hi
  | cons x xs ih =>
      intro r h i hi
      simp only [optMap, Option.bind_eq_some, Option.map_eq_some'] at h
      obtain ⟨b, hb, bs, hbs, hr⟩ := h
      cases i with
      | zero => exact ⟨x, b, by simp, hb, by simp [← hr]⟩
      | succ k =>
          have hk : k < xs.length := by simpa using hi
          obtain ⟨a, c, ha, hc, hcs⟩ := ih hbs k hk
          exact ⟨a, c, by simpa using ha, hc, by simp [← hr]; simpa using hcs⟩

/-- A convenient specialisation: `optMap` over `List.range n`. -/
theorem optMap_range_getElem? {β : Type} {f : Nat → Option β} {n : Nat} {r : List β}
    (h : optMap f (List.range n) = some r) (i : Nat) (hi : i < n) :
    ∃ b, f i = some b ∧ r[i]? = some b := by
  obtain ⟨a, b, ha, hb, hr⟩ := optMap_getElem? h i (by simpa using hi)
  rw [List.getElem?_range hi] at ha
  cases ha
  exact ⟨b, hb, hr⟩

/-! ### Facts about `pyIndex` (Python's `list.index`) -/

theorem pyIndex_getElem? {x : Int} :
    ∀ {l : List Int} {p : Nat}, pyIndex x l = some p → l[p]? = some x := by
  intro l
  induction l with
  | nil => intro p h; simp [pyIndex] at h
  | cons a as ih =>
      intro p h
      by_cases hax : a = x
      · simp [pyIndex, hax] at h
        simp [← h, hax]
      · simp [pyIndex, hax, Option.map_eq_some'] at h
        obtain ⟨q, hq, hp⟩ := h
        subst hp
        simpa using ih hq

theorem pyIndex_lt_length {x : Int} {l : List Int} {p : Nat}
    (h : pyIndex x l = some p) : p < l.length :=
  (List.getElem?_eq_some_iff.mp (pyIndex_getElem? h)).1

theorem pyIndex_mem {x : Int} {l : List Int} {p : Nat}
    (h : pyIndex x l = some p) : x ∈ l :=
  List.getElem?_mem (pyIndex_getElem? h)

theorem pyIndex_isSome_of_mem {x : Int} :
    ∀ {l : List Int}, x ∈ l → ∃ p, pyIndex x l = some p := by
  intro l
  induction l with
  | nil => intro h; cases h
  | cons a as ih =>
      intro h
      by_cases hax : a = x
      · exact ⟨0, by simp [pyIndex, hax]⟩
      · rcases List.mem_cons.mp h with h' | h'
        · exact absurd h'.symm hax
        · obtain ⟨q, hq⟩ := ih h'
          exact ⟨q + 1, by simp [pyIndex, hax, hq]⟩

theorem pyIndex_of_nodup :
    ∀ {l : List Int}, l.Nodup → ∀ {p : Nat} {x : Int},
      l[p]? = some x → pyIndex x l = some p := by
  intro l
  induction l with
  | nil => intro _ p x h; simp at h
  | cons a as ih =>
      intro hnd p x h
      have hnd' : as.Nodup := (List.nodup_cons.mp hnd).2
      have hna : a ∉ as := (List.nodup_cons.mp hnd).1
      cases p with
      | zero =>
          simp at h
          simp [pyIndex, h]
      | succ q =>
          have hq : as[q]? = some x := by simpa using h
          have hxa : ¬a = x := fun hax => hna (hax ▸ List.getElem?_mem hq)
          simp [pyIndex, hxa, ih hnd' hq]

/-! ### Inverting a successful parse -/

theorem read_instance_inv {raw : List (List Int)} {inst : OpenShopProblem}
    (h : read_instance raw = some inst) :
    ∃ tokens ptto miraw,
      (stripLines raw)[1]? = some tokens ∧
      tokens[0]? = some inst.nb_jobs ∧
      tokens[1]? = some inst.nb_machines ∧
      optMap (fun k => (stripLines raw)[3 + k]?) (List.range inst.nb_jobs.toNat) = some ptto ∧
      optMap (fun k => (stripLines raw)[4 + inst.nb_jobs.toNat + k]?)
        (List.range inst.nb_jobs.toNat) = some miraw ∧
      optMap (fun j =>
          (miraw.map (fun l => l.map (fun x => x - 1)))[j]?.bind fun mi =>
          ptto[j]?.bind fun drow =>
          buildRow mi drow inst.nb_machines.toNat)
        (List.range inst.nb_jobs.toNat) = some inst.processing_times ∧
      inst.max_start = (inst.processing_times.map List.sum).sum := by
  simp only [read_instance, Option.bind_eq_some] at h
  obtain ⟨tokens, htok, nbj, h0, nbm, h1, ptto, hptto, miraw, hmi, pt, hpt, hinst⟩ := h
  injection hinst with hinst
  subst hinst
  exact ⟨tokens, ptto, miraw, htok, h0, h1, hptto, hmi, hpt, rfl⟩

/-- A successful parse determines, for each job `j`, a row of
`processing_times` produced by `buildRow` from that job's machine-index line
and duration line. -/
theorem read_instance_row {raw : List (List Int)} {inst : OpenShopProblem}
    {tokens drow mrow : List Int} {nbj nbm : Int} {j : Nat}
    (htok : (stripLines raw)[1]? = some tokens)
    (h0 : tokens[0]? = some nbj) (h1 : tokens[1]? = some nbm)
    (hj : j < nbj.toNat)
    (hd : (stripLines raw)[3 + j]? = some drow)
    (hmr : (stripLines raw)[4 + nbj.toNat + j]? = some mrow)
    (h : read_instance raw = some inst) :
    ∃ row, inst.processing_times[j]? = some row ∧
      buildRow (mrow.map (fun x => x - 1)) drow nbm.toNat = some row := by
  obtain ⟨tokens', ptto, miraw, htok', h0', h1', hptto, hmi, hpt, _⟩ := read_instance_inv h
  rw [htok] at htok'
  injection htok' with e
  subst e
  rw [h0] at h0'
  injection h0' with e0
  subst e0
  rw [h1] at h1'
  injection h1' with e1
  subst e1
  obtain ⟨b, hbf, hbg⟩ := optMap_range_getElem? hptto j hj
  rw [hd] at hbf
  injection hbf with e
  subst e
  obtain ⟨c, hcf, hcg⟩ := optMap_range_getElem? hmi j hj
  rw [hmr] at hcf
  injection hcf with e
  subst e
  obtain ⟨row, hrowf, hrowg⟩ := optMap_range_getElem? hpt j hj
  refine ⟨row, hrowg, ?_⟩
  rw [List.getElem?_map, hcg] at hrowf
  simp only [Option.map_some', Option.some_bind] at hrowf
  rw [hbg] at hrowf
  simpa using hrowf

/-! ### The reorder loop under a valid machine-index line -/

theorem nodup_of_perm_range {mi : List Int} {n : Nat}
    (h : mi.Perm ((List.range n).map Int.ofNat)) : mi.Nodup :=
  h.nodup_iff.mpr (List.Nodup.map (fun _ _ h => Int.ofNat.inj h) (List.nodup_range n))

theorem length_of_perm_range {mi : List Int} {n : Nat}
    (h : mi.Perm ((List.range n).map Int.ofNat)) : mi.length = n := by
  simpa using h.length_eq

/-- Reading `buildRow`'s output at machine `m`: it is the duration found at the
(unique, by `Nodup`) position `p` of `m` in the machine-index line. -/
theorem buildRow_getElem? {mi drow : List Int} {nbm m p : Nat} {row : List Int}
    (hnd : mi.Nodup) (hm : m < nbm) (hp : mi[p]? = some (Int.ofNat m))
    (h : buildRow mi drow nbm = some row) :
    row[m]? = drow[p]? := by
  obtain ⟨v, hv, hrow⟩ := optMap_range_getElem? h m hm
  rw [pyIndex_of_nodup hnd hp] at hv
  simp only [Option.some_bind] at hv
  rw [hrow, hv]

theorem map_getD_range (l : List Int) :
    (List.range l.length).map (fun i => l.getD i 0) = l := by
  induction l with
  | nil => rfl
  | cons a as ih =>
      rw [List.length_cons, List.range_succ_eq_map, List.map_cons, List.map_map]
      have hc : ((fun i => (a :: as).getD i 0) ∘ Nat.succ) = fun i => as.getD i 0 := by
        funext i; rfl
      rw [hc, ih]
      rfl

theorem perm_range_of_nodup_lt {posl : List Nat} {n : Nat}
    (hnd : posl.Nodup) (hlt : ∀ x ∈ posl, x < n) (hlen : posl.length = n) :
    posl.Perm (List.range n) :=
  List.Subperm.perm_of_length_le
    (List.subperm_of_subset hnd (fun x hx => List.mem_range.mpr (hlt x hx)))
    (by simp [hlen])

/-- When the machine-index line is a permutation of `[0, nbm)` and the duration
line has `nbm` entries, the built row is a permutation of the duration line. -/
theorem buildRow_perm {mi drow : List Int} {nbm : Nat} {row : List Int}
    (hperm : mi.Perm ((List.range nbm).map Int.ofNat))
    (hlen : drow.length = nbm)
    (h : buildRow mi drow nbm = some row) :
    row.Perm drow := by
  have hnd := nodup_of_perm_range hperm
  have hmil := length_of_perm_range hperm
  set pos := fun m => (pyIndex (Int.ofNat m) mi).getD 0 with hposdef
  have hpos : ∀ m, m < nbm → pyIndex (Int.ofNat m) mi = some (pos m) := by
    intro m hm
    have hmem : Int.ofNat m ∈ mi :=
      hperm.mem_iff.mpr (List.mem_map.mpr ⟨m, List.mem_range.mpr hm, rfl⟩)
    obtain ⟨p, hp⟩ := pyIndex_isSome_of_mem hmem
    simp only [hposdef]
    rw [hp]
    rfl
  have hposlt : ∀ m, m < nbm → pos m < nbm := by
    intro m hm
    have := pyIndex_lt_length (hpos m hm)
    rwa [hmil] at this
  have hrowlen : row.length = nbm := by
    have := optMap_length h
    simpa using this
  have hrow_eq : row = ((List.range nbm).map pos).map (fun i => drow.getD i 0) := by
    apply List.ext_getElem?
    intro k
    by_cases hk : k < nbm
    · obtain ⟨v, hv, hrk⟩ := optMap_range_getElem? h k hk
      rw [hpos k hk] at hv
      simp only [Option.some_bind] at hv
      rw [hrk, List.getElem?_map, List.getElem?_map, List.getElem?_range hk]
      simp [List.getD_eq_getElem?_getD, hv]
    · have hk' : nbm ≤ k := Nat.le_of_not_lt hk
      rw [List.getElem?_eq_none (by rw [hrowlen]; exact hk'),
        List.getElem?_eq_none (by simpa using hk')]
  have hposperm : ((List.range nbm).map pos).Perm (List.range nbm) := by
    apply perm_range_of_nodup_lt
    · apply List.Nodup.map_on _ (List.nodup_range nbm)
      intro x hx y hy hxy
      have h1 := pyIndex_getElem? (hpos x (List.mem_range.mp hx))
      have h2 := pyIndex_getElem? (hpos y (List.mem_range.mp hy))
      rw [hxy] at h1
      rw [h1] at h2
      injection h2 with h2
      exact Int.ofNat.inj h2
    · intro x hx
      obtain ⟨m, hm, hmx⟩ := List.mem_map.mp hx
      subst hmx
      exact hposlt m (List.mem_range.mp hm)
    · simp
  have h1 : (((List.range nbm).map pos).map (fun i => drow.getD i 0)).Perm
      ((List.range nbm).map (fun i => drow.getD i 0)) := List.Perm.map _ hposperm
  have h2 : (List.range nbm).map (fun i => drow.getD i 0) = drow := by
    rw [← hlen]
    exact map_getD_range drow
  rw [h2] at h1
  rw [hrow_eq]
  exact h1

/-! ### The claims -/

/-- C1 counterexample: on the spec's own 2-job 2-machine scenario (durations
`[[3,5],[4,2]]`, 1-indexed assignments `[[2,1],[1,2]]`) the parser produces
`[[5,3],[4,2]]`, not the claimed `[[5,3],[2,4]]`: job 1's machine list is
`[0,1]` after conversion, so machine 0 takes the duration at position 0,
which is 4. -/
theorem claim1_counterexample :
    read_instance exRaw = some ⟨2, 2, [[5, 3], [4, 2]], 14⟩ ∧
    ¬ (read_instance exRaw).map OpenShopProblem.processing_times = some [[5, 3], [2, 4]] :=
  ⟨by decide, by decide⟩

/-- C1 (amended): for a well-formed input (job `j`'s machine-index list, after
1-to-0 conversion, a permutation of `[0, nb_machines)`), the parsed
`processing_times[j][m]` is the duration at the position `p` of job `j`'s
task-order duration line where the machine-index list holds `m`.  (The spec's
concrete scenario yields `[[5,3],[4,2]]`, not `[[5,3],[2,4]]`.) -/
theorem claim1_reindex {raw : List (List Int)} {inst : OpenShopProblem}
    {tokens drow mrow : List Int} {nbj nbm : Int} {j m p : Nat}
    (htok : (stripLines raw)[1]? = some tokens)
    (h0 : tokens[0]? = some nbj) (h1 : tokens[1]? = some nbm)
    (hj : j < nbj.toNat) (hm : m < nbm.toNat)
    (hd : (stripLines raw)[3 + j]? = some drow)
    (hmr : (stripLines raw)[4 + nbj.toNat + j]? = some mrow)
    (hperm : (mrow.map (fun x => x - 1)).Perm ((List.range nbm.toNat).map Int.ofNat))
    (hp : (mrow.map (fun x => x - 1))[p]? = some (Int.ofNat m))
    (h : read_instance raw = some inst) :
    (inst.processing_times[j]?.bind fun row => row[m]?) = drow[p]? := by
  obtain ⟨row, hrow, hbuild⟩ := read_instance_row htok h0 h1 hj hd hmr h
  rw [hrow]
  simp only [Option.some_bind]
  exact buildRow_getElem? (nodup_of_perm_range hperm) hm hp hbuild

/-- C1 witness: the (corrected) concrete scenario, read off at job 0,
machine 0, which sits at position 1 of job 0's machine-index line. -/
theorem claim1_witness :
    read_instance exRaw = some ⟨2, 2, [[5, 3], [4, 2]], 14⟩ ∧
    (([[5, 3], [4, 2]] : List (List Int))[0]?.bind fun row => row[0]?) =
      ([3, 5] : List Int)[1]? :=
  ⟨by decide,
    @claim1_reindex exRaw ⟨2, 2, [[5, 3], [4, 2]], 14⟩ [2, 2] [3, 5] [2, 1] 2 2 0 0 1
      (by decide) (by decide) (by decide) (by decide) (by decide) (by decide) (by decide)
      (by decide) (by decide) (by decide)⟩

/-- C2 counterexample: with 2 machines, the machine-assignment line `[1,1,2]`
(0-indexed `[0,0,1]`) has machine index 0 appearing twice, yet construction
succeeds: `list.index` takes the first occurrence, and no index in `[0,2)` is
missing. -/
theorem claim2_counterexample :
    ((([1, 1, 2] : List Int).map (fun x => x - 1)).count (Int.ofNat 0) = 2) ∧
    read_instance [[9], [1, 2], [9], [3, 5, 9], [9], [1, 1, 2]] =
      some ⟨1, 2, [[3, 9]], 12⟩ :=
  ⟨by decide, by decide⟩

/-- C2 (amended): construction fails whenever some machine index `m` in
`[0, nb_machines)` is *missing* from some job's machine-assignment list; a
duplicated index by itself is not fatal. -/
theorem claim2_missing_fatal {raw : List (List Int)} {tokens mrow : List Int}
    {nbj nbm : Int} {j m : Nat}
    (htok : (stripLines raw)[1]? = some tokens)
    (h0 : tokens[0]? = some nbj) (h1 : tokens[1]? = some nbm)
    (hj : j < nbj.toNat)
    (hmr : (stripLines raw)[4 + nbj.toNat + j]? = some mrow)
    (hm : m < nbm.toNat)
    (hnotin : Int.ofNat m ∉ mrow.map (fun x => x - 1)) :
    read_instance raw = Option.none := by
  cases hri : read_instance raw with
  | none => rfl
  | some inst =>
      exfalso
      obtain ⟨tokens', ptto, miraw, htok', h0', h1', hptto, hmi, hpt, _⟩ :=
        read_instance_inv hri
      rw [htok] at htok'
      injection htok' with e
      subst e
      rw [h0] at h0'
      injection h0' with e0
      subst e0
      rw [h1] at h1'
      injection h1' with e1
      subst e1
      obtain ⟨c, hcf, hcg⟩ := optMap_range_getElem? hmi j hj
      rw [hmr] at hcf
      injection hcf with e
      subst e
      obtain ⟨row, hrowf, hrowg⟩ := optMap_range_getElem? hpt j hj
      rw [List.getElem?_map, hcg] at hrowf
      simp only [Option.map_some', Option.some_bind] at hrowf
      rw [Option.bind_eq_some] at hrowf
      obtain ⟨drow, hdrow, hbuild⟩ := hrowf
      obtain ⟨v, hv, _⟩ := optMap_range_getElem? hbuild m hm
      rw [Option.bind_eq_some] at hv
      obtain ⟨posn, hposn, _⟩ := hv
      exact hnotin (pyIndex_mem hposn)

/-- C2 witness: 1 job, 2 machines, machine-assignment line `[1,1]`
(0-indexed `[0,0]`): machine index 1 is missing, and parsing fails. -/
theorem claim2_witness :
    Int.ofNat 1 ∉ (([1, 1] : List Int).map (fun x => x - 1)) ∧
    read_instance [[9], [1, 2], [9], [3, 5], [9], [1, 1]] = Option.none :=
  ⟨by decide,
    @claim2_missing_fatal [[9], [1, 2], [9], [3, 5], [9], [1, 1]] [1, 2] [1, 1] 1 2 0 1
      (by decide) (by decide) (by decide) (by decide) (by decide) (by decide) (by decide)⟩

/-- C3: `evaluate_solution` returns the 1000000000 penalty, and is total, on
any value that is not a dict or is a dict lacking `jobs_order` or
`machines_order`. -/
theorem claim3_malformed (st : OpenShopProblem) (sol : PyVal)
    (h : isDict sol = false ∨ ∃ es, sol = PyVal.dict es ∧
      (dictGet es "jobs_order" = Option.none ∨ dictGet es "machines_order" = Option.none)) :
    (evaluate_solution st sol).2 = PyVal.int 1000000000 := by
  cases sol with
  | dict es =>
      rcases h with h | ⟨es', hes, h⟩
      · simp [isDict] at h
      · injection hes with e
        subst e
        rcases h with h | h <;> simp [evaluate_solution, h]
  | int n => rfl
  | str s => rfl
  | list l => rfl
  | pyNone => rfl

/-- C3 witness: a bare integer is not a dict and is penalised. -/
theorem claim3_witness :
    (evaluate_solution ⟨1, 1, [[1]], 1⟩ (PyVal.int 0)).2 = PyVal.int 1000000000 :=
  claim3_malformed ⟨1, 1, [[1]], 1⟩ (PyVal.int 0) (Or.inl rfl)

/-- C4: on a dict carrying both `jobs_order` and `machines_order`,
`evaluate_solution` returns the `objective` value when present and the
1000000000 sentinel when absent. -/
theorem claim4_objective (st : OpenShopProblem) (es : List (String × PyVal))
    (hj : (dictGet es "jobs_order").isSome = true)
    (hm : (dictGet es "machines_order").isSome = true) :
    (∀ v, dictGet es "objective" = some v →
      (evaluate_solution st (PyVal.dict es)).2 = v) ∧
    (dictGet es "objective" = Option.none →
      (evaluate_solution st (PyVal.dict es)).2 = PyVal.int 1000000000) := by
  constructor
  · intro v hv
    simp [evaluate_solution, hj, hm, hv]
  · intro hv
    simp [evaluate_solution, hj, hm, hv]

/-- C4 witness: the spec's concrete scenario — both ordering fields plus
`objective = 42` evaluates to 42. -/
theorem claim4_witness :
    (evaluate_solution ⟨1, 1, [[1]], 1⟩
      (PyVal.dict [("jobs_order", PyVal.list []), ("machines_order", PyVal.list []),
        ("objective", PyVal.int 42)])).2 = PyVal.int 42 :=
  (claim4_objective ⟨1, 1, [[1]], 1⟩
      [("jobs_order", PyVal.list []), ("machines_order", PyVal.list []),
        ("objective", PyVal.int 42)] rfl rfl).1 (PyVal.int 42) rfl

/-- C5: a successful parse has `nb_jobs` rows of `nb_machines` entries, the
entries all come from the input (hence are non-negative when all input tokens
are), and `max_start` is the total sum of the matrix. -/
theorem claim5_shape {raw : List (List Int)} {inst : OpenShopProblem}
    (h : read_instance raw = some inst)
    (hnn : ∀ l ∈ raw, ∀ x ∈ l, 0 ≤ x) :
    inst.processing_times.length = inst.nb_jobs.toNat ∧
    (∀ row ∈ inst.processing_times, row.length = inst.nb_machines.toNat) ∧
    (∀ row ∈ inst.processing_times, ∀ x ∈ row, 0 ≤ x) ∧
    inst.max_start = (inst.processing_times.map List.sum).sum := by
  obtain ⟨tokens, ptto, miraw, htok, h0, h1, hptto, hmi, hpt, hms⟩ := read_instance_inv h
  have hlen : inst.processing_times.length = inst.nb_jobs.toNat := by
    have := optMap_length hpt
    simpa using this
  have key : ∀ row ∈ inst.processing_times,
      row.length = inst.nb_machines.toNat ∧ ∀ x ∈ row, 0 ≤ x := by
    intro row hrow
    obtain ⟨j, hjl, hjget⟩ := List.mem_iff_getElem.mp hrow
    have hj : j < inst.nb_jobs.toNat := by rwa [hlen] at hjl
    obtain ⟨row', hfj, hget'⟩ := optMap_range_getElem? hpt j hj
    have hrow' : row' = row := by
      rw [List.getElem?_eq_getElem hjl, hjget] at hget'
      injection hget' with e
      exact e.symm
    subst hrow'
    rw [Option.bind_eq_some] at hfj
    obtain ⟨mi, hmi_j, hfj⟩ := hfj
    rw [Option.bind_eq_some] at hfj
    obtain ⟨drow, hdrow_j, hbuild⟩ := hfj
    constructor
    · have := optMap_length hbuild
      simpa using this
    · intro x hx
      have hrl : row'.length = inst.nb_machines.toNat := by
        have := optMap_length hbuild
        simpa using this
      obtain ⟨k, hkl, hkget⟩ := List.mem_iff_getElem.mp hx
      have hk : k < inst.nb_machines.toNat := by rwa [hrl] at hkl
      obtain ⟨v, hfk, hgetk⟩ := optMap_range_getElem? hbuild k hk
      have hv : v = x := by
        rw [List.getElem?_eq_getElem hkl, hkget] at hgetk
        injection hgetk with e
        exact e.symm
      subst hv
      rw [Option.bind_eq_some] at hfk
      obtain ⟨posn, _, hdval⟩ := hfk
      -- v is an entry of drow, and drow is a duration line of the input
      have hvd : v ∈ drow := List.getElem?_mem hdval
      have hjd : j < (List.range inst.nb_jobs.toNat).length := by simpa using hj
      obtain ⟨a, b, ha, hb, hc⟩ := optMap_getElem? hptto j hjd
      rw [List.getElem?_range hj] at ha
      injection ha with ha
      subst ha
      rw [hdrow_j] at hc
      injection hc with hc
      have hdmem : drow ∈ stripLines raw := by
        subst hc
        exact List.getElem?_mem hb
      have hdraw : drow ∈ raw := List.mem_of_mem_filter hdmem
      exact hnn drow hdraw v hvd
  exact ⟨hlen, fun row hrow => (key row hrow).1, fun row hrow => (key row hrow).2, hms⟩

/-- C5 witness: the concrete 2×2 instance. -/
theorem claim5_witness :
    ([[5, 3], [4, 2]] : List (List Int)).length = (2 : Int).toNat ∧
    (∀ row ∈ ([[5, 3], [4, 2]] : List (List Int)), row.length = (2 : Int).toNat) ∧
    (∀ row ∈ ([[5, 3], [4, 2]] : List (List Int)), ∀ x ∈ row, 0 ≤ x) ∧
    (14 : Int) = (([[5, 3], [4, 2]] : List (List Int)).map List.sum).sum :=
  @claim5_shape exRaw ⟨2, 2, [[5, 3], [4, 2]], 14⟩ (by decide) (by decide)

/-- C6: `random_solution` returns a dict of exactly `nb_machines` permutations
of `[0, nb_jobs)` under `jobs_order` and `nb_jobs` permutations of
`[0, nb_machines)` under `machines_order`, with no `objective` key; the
hypothesis on `shuffle` is `random.shuffle`'s guarantee of permuting its
input. -/
theorem claim6_random_shape (st : OpenShopProblem) (shuffle : Nat → List Nat → List Nat)
    (hs : ∀ k l, (shuffle k l).Perm l) :
    ∃ jo mo : List (List Nat),
      (random_solution st shuffle).2 = PyVal.dict
        [("jobs_order", PyVal.list (jo.map encNatList)),
         ("machines_order", PyVal.list (mo.map encNatList))] ∧
      jo.length = st.nb_machines.toNat ∧
      (∀ l ∈ jo, l.Perm (List.range st.nb_jobs.toNat)) ∧
      mo.length = st.nb_jobs.toNat ∧
      (∀ l ∈ mo, l.Perm (List.range st.nb_machines.toNat)) ∧
      dictGet [("jobs_order", PyVal.list (jo.map encNatList)),
        ("machines_order", PyVal.list (mo.map encNatList))] "objective" = Option.none := by
  refine ⟨(List.range st.nb_machines.toNat).map
      (fun m => shuffle m (List.range st.nb_jobs.toNat)),
    (List.range st.nb_jobs.toNat).map
      (fun j => shuffle (st.nb_machines.toNat + j) (List.range st.nb_machines.toNat)),
    rfl, by simp, ?_, by simp, ?_, rfl⟩
  · intro l hl
    obtain ⟨m, _, hml⟩ := List.mem_map.mp hl
    subst hml
    exact hs _ _
  · intro l hl
    obtain ⟨j, _, hjl⟩ := List.mem_map.mp hl
    subst hjl
    exact hs _ _

/-- C6 witness: a 2×2 instance with the identity oracle (a legal shuffle). -/
theorem claim6_witness :
    ∃ jo mo : List (List Nat),
      (random_solution ⟨2, 2, [[5, 3], [4, 2]], 14⟩ (fun _ l => l)).2 = PyVal.dict
        [("jobs_order", PyVal.list (jo.map encNatList)),
         ("machines_order", PyVal.list (mo.map encNatList))] ∧
      jo.length = (2 : Int).toNat ∧
      (∀ l ∈ jo, l.Perm (List.range (2 : Int).toNat)) ∧
      mo.length = (2 : Int).toNat ∧
      (∀ l ∈ mo, l.Perm (List.range (2 : Int).toNat)) ∧
      dictGet [("jobs_order", PyVal.list (jo.map encNatList)),
        ("machines_order", PyVal.list (mo.map encNatList))] "objective" = Option.none :=
  claim6_random_shape ⟨2, 2, [[5, 3], [4, 2]], 14⟩ (fun _ l => l)
    (fun _ l => List.Perm.refl l)

/-- C7: within each job, reindexing permutes the durations: the parsed row for
job `j` is a permutation of job `j`'s task-order duration line. -/
theorem claim7_roundtrip {raw : List (List Int)} {inst : OpenShopProblem}
    {tokens drow mrow : List Int} {nbj nbm : Int} {j : Nat}
    (htok : (stripLines raw)[1]? = some tokens)
    (h0 : tokens[0]? = some nbj) (h1 : tokens[1]? = some nbm)
    (hj : j < nbj.toNat)
    (hd : (stripLines raw)[3 + j]? = some drow)
    (hmr : (stripLines raw)[4 + nbj.toNat + j]? = some mrow)
    (hperm : (mrow.map (fun x => x - 1)).Perm ((List.range nbm.toNat).map Int.ofNat))
    (hlen : drow.length = nbm.toNat)
    (h : read_instance raw = some inst) :
    ∃ row, inst.processing_times[j]? = some row ∧ row.Perm drow := by
  obtain ⟨row, hrow, hbuild⟩ := read_instance_row htok h0 h1 hj hd hmr h
  exact ⟨row, hrow, buildRow_perm hperm hlen hbuild⟩

/-- C7 witness: job 0 of the concrete 2×2 instance — `[5,3]` is a permutation
of the original duration line `[3,5]`. -/
theorem claim7_witness :
    ∃ row, ([[5, 3], [4, 2]] : List (List Int))[0]? = some row ∧
      row.Perm ([3, 5] : List Int) :=
  @claim7_roundtrip exRaw ⟨2, 2, [[5, 3], [4, 2]], 14⟩ [2, 2] [3, 5] [2, 1] 2 2 0
    (by decide) (by decide) (by decide) (by decide) (by decide) (by decide) (by decide)
    (by decide) (by decide)

/-- C8 counterexample: an input declaring `nb_jobs = 0` parses successfully
from only 2 blank-stripped lines, though `4 + 2*nb_jobs = 4 > 2`: both per-job
loops are empty, so a complete (empty-matrix) instance is returned. -/
theorem claim8_counterexample :
    (stripLines [[7], [0, 2]]).length = 2 ∧
    (stripLines [[7], [0, 2]])[1]? = some [0, 2] ∧
    (([0, 2] : List Int))[0]? = some 0 ∧
    ((stripLines [[7], [0, 2]]).length : Int) < 4 + 2 * 0 ∧
    read_instance [[7], [0, 2]] = some ⟨0, 2, [], 0⟩ :=
  ⟨by decide, by decide, by decide, by decide, by decide⟩

/-- C8 (amended): with fewer than 2 blank-stripped lines parsing fails, and
with a declared `nb_jobs ≥ 1` and fewer than `4 + 2*nb_jobs` blank-stripped
lines parsing fails, returning no partial instance.  (`nb_jobs = 0` must be
excluded: there both per-job loops are empty and 2 lines suffice.) -/
theorem claim8_short_input {raw : List (List Int)} :
    ((stripLines raw).length < 2 → read_instance raw = Option.none) ∧
    (∀ tokens nbj, (stripLines raw)[1]? = some tokens → tokens[0]? = some nbj →
      1 ≤ nbj → ((stripLines raw).length : Int) < 4 + 2 * nbj →
      read_instance raw = Option.none) := by
  constructor
  · intro hlen
    have h1 : (stripLines raw)[1]? = Option.none := List.getElem?_eq_none (by omega)
    simp [read_instance, h1]
  · intro tokens nbj htok h0 h1 hlen
    simp only [read_instance, htok, h0, Option.some_bind]
    cases h2 : tokens[1]? with
    | none => rfl
    | some nbm =>
        simp only [Option.some_bind]
        cases hopt : optMap (fun k => (stripLines raw)[3 + k]?) (List.range nbj.toNat) with
        | none => rfl
        | some ptto =>
            simp only [Option.some_bind]
            have hnone : (stripLines raw)[4 + nbj.toNat + (nbj.toNat - 1)]? = Option.none := by
              apply List.getElem?_eq_none
              omega
            have hmopt : optMap (fun k => (stripLines raw)[4 + nbj.toNat + k]?)
                (List.range nbj.toNat) = Option.none :=
              optMap_eq_none (List.mem_range.mpr (by omega)) hnone
            rw [hmopt]
            rfl

/-- C8 witness: a 1-line input fails, and a 4-line input declaring 1 job and
2 machines (which needs 6 lines) fails. -/
theorem claim8_witness :
    read_instance [[1, 2]] = Option.none ∧
    read_instance [[9], [1, 2], [9], [3, 5]] = Option.none :=
  ⟨(@claim8_short_input [[1, 2]]).1 (by decide),
    (@claim8_short_input [[9], [1, 2], [9], [3, 5]]).2 [1, 2] 1
      (by decide) (by decide) (by decide) (by decide)⟩

/-- C9: neither `evaluate_solution` (on any argument) nor `random_solution`
changes any of the four stored instance attributes. -/
theorem claim9_frame (st : OpenShopProblem) (sol : PyVal)
    (shuffle : Nat → List Nat → List Nat) :
    ((evaluate_solution st sol).1.nb_jobs = st.nb_jobs ∧
     (evaluate_solution st sol).1.nb_machines = st.nb_machines ∧
     (evaluate_solution st sol).1.processing_times = st.processing_times ∧
     (evaluate_solution st sol).1.max_start = st.max_start) ∧
    ((random_solution st shuffle).1.nb_jobs = st.nb_jobs ∧
     (random_solution st shuffle).1.nb_machines = st.nb_machines ∧
     (random_solution st shuffle).1.processing_times = st.processing_times ∧
     (random_solution st shuffle).1.max_start = st.max_start) := by
  have h1 : (evaluate_solution st sol).1 = st := by
    cases sol with
    | dict es =>
        simp only [evaluate_solution]
        split
        · rfl
        · rfl
    | int n => rfl
    | str s => rfl
    | list l => rfl
    | pyNone => rfl
  exact ⟨⟨by rw [h1], by rw [h1], by rw [h1], by rw [h1]⟩, rfl, rfl, rfl, rfl⟩

/-- C10: a freshly generated random solution always evaluates to the
1000000000 sentinel — it carries both ordering keys but no `objective`. -/
theorem claim10_compose (st : OpenShopProblem) (shuffle : Nat → List Nat → List Nat) :
    (evaluate_solution st (random_solution st shuffle).2).2 = PyVal.int 1000000000 := rfl
